import Mathlib

/-!
Verification of the evaluation core of a 0/1 knapsack program: the score
type and its ordering (src/cliff_score.rs), the item record and its line
parser (src/item.rs), the knapsack record with its aggregation functions
and file loader (src/knapsack.rs), and the best-ever tracking of
src/main.rs. Strings are embedded as lists of characters; the fallible
Rust functions are embedded as `Except`-valued functions.
-/

/-- Score type from src/cliff_score.rs. The variant `Overloaded` is declared
before `Score`, so the derived order places `Overloaded` below every
`Score v`. -/
inductive CliffScore where
  | Overloaded : CliffScore
  | Score : Nat → CliffScore
deriving DecidableEq, Repr

/-- Comparison of scores, mirroring the derived `Ord` of Rust: the variant
declared first is smaller, and two `Score` payloads compare numerically. -/
def CliffScore.cmp : CliffScore → CliffScore → Ordering
  | .Overloaded, .Overloaded => .eq
  | .Overloaded, .Score _ => .lt
  | .Score _, .Overloaded => .gt
  | .Score a, .Score b => compare a b

/-- Default score, mirroring the derived `Default` of Rust whose default
attribute sits on the `Overloaded` variant. -/
def CliffScore.default : CliffScore := .Overloaded

/-- Maximum of two scores under `CliffScore.cmp`, keeping the left argument
on ties; used to state the best-ever tracking property. -/
def CliffScore.max (x y : CliffScore) : CliffScore :=
  if CliffScore.cmp x y = .lt then y else x

/-- Item from src/item.rs: an id, a value and a weight, all unsigned. -/
structure Item where
  id : Nat
  value : Nat
  weight : Nat
deriving DecidableEq, Repr

/-- Constructor mirroring `Item::new`. -/
def Item.new (id value weight : Nat) : Item := ⟨id, value, weight⟩

/-- Knapsack from src/knapsack.rs: an ordered collection of items together
with a capacity. -/
structure Knapsack where
  items : List Item
  capacity : Nat
deriving DecidableEq, Repr

/-- Constructor mirroring `Knapsack::new`. -/
def Knapsack.new (items : List Item) (capacity : Nat) : Knapsack := ⟨items, capacity⟩

/-- Mirror of `Knapsack::num_items`. -/
def Knapsack.num_items (k : Knapsack) : Nat := k.items.length

/-- Mirror of `Knapsack::get_item`, which is `self.items.get(index)`. -/
def Knapsack.get_item (k : Knapsack) (index : Nat) : Option Item :=
  k.items.get? index

/-- Mirror of `Knapsack::value`: zip the items with the choices, keep the
value of each chosen item, and sum. -/
def Knapsack.value (k : Knapsack) (choices : List Bool) : Nat :=
  ((k.items.zip choices).filterMap fun p => if p.2 then some p.1.value else none).sum

/-- Mirror of `Knapsack::weight`: zip the items with the choices, keep the
weight of each chosen item, and sum. -/
def Knapsack.weight (k : Knapsack) (choices : List Bool) : Nat :=
  ((k.items.zip choices).filterMap fun p => if p.2 then some p.1.weight else none).sum

/-- Modelled from the spec: the cliff scorer. The file src/cliff_scorer.rs is
not among the provided sources (only its caller in src/main.rs is), so this
follows the spec algorithm: compute the total weight of the choices; if it
exceeds the capacity return `Overloaded`, otherwise return the total value
wrapped in `Score`. -/
def CliffScorer.score (k : Knapsack) (choices : List Bool) : CliffScore :=
  if k.weight choices > k.capacity then .Overloaded else .Score (k.value choices)

/-- Individual as used by src/main.rs: a bitstring genome together with its
score in the `test_results` field. -/
structure EcIndividual where
  genome : List Bool
  test_results : CliffScore
deriving DecidableEq, Repr

/-- Best-ever record update of `report_on_generation` in src/main.rs, with
the printing side effects omitted: an absent record is set to the generation
best; a present record is replaced exactly when the generation best compares
strictly greater than it. -/
def report_on_generation (best : EcIndividual) (best_in_run : Option EcIndividual) :
    Option EcIndividual :=
  match best_in_run with
  | none => some best
  | some b =>
    if CliffScore.cmp best.test_results b.test_results = .gt then some best else some b

/-- Folding the best-ever update over the per-generation bests of a run,
starting from the absent record as src/main.rs does. -/
def bestEverAfter (bests : List EcIndividual) : Option EcIndividual :=
  bests.foldl (fun r best => report_on_generation best r) none

section OrderingLemmas

/-- Swapping the arguments of `CliffScore.cmp` swaps the ordering. -/
theorem CliffScore.cmp_swap (x y : CliffScore) : (CliffScore.cmp x y).swap = CliffScore.cmp y x := by
  cases x <;> cases y
  case Score.Score a b => exact Nat.compare_swap a b
  all_goals rfl

/-- The comparison returns `eq` exactly on equal scores. -/
theorem CliffScore.cmp_eq_eq_iff (x y : CliffScore) : CliffScore.cmp x y = .eq ↔ x = y := by
  cases x <;> cases y <;>
    simp [CliffScore.cmp, Nat.compare_eq_eq]

/-- The comparison of `Score` payloads is the numeric one. -/
theorem CliffScore.cmp_score_lt_iff (a b : Nat) :
    CliffScore.cmp (.Score a) (.Score b) = .lt ↔ a < b := by
  simp [CliffScore.cmp, Nat.compare_eq_lt]

/-- Strictly-less one way is strictly-greater the other way. -/
theorem CliffScore.cmp_lt_iff_gt (x y : CliffScore) :
    CliffScore.cmp x y = .lt ↔ CliffScore.cmp y x = .gt := by
  rw [← CliffScore.cmp_swap y x]
  cases CliffScore.cmp y x <;> simp [Ordering.swap]

/-- The comparison is transitive on its strict part. -/
theorem CliffScore.cmp_trans {x y z : CliffScore} (hxy : CliffScore.cmp x y = .lt)
    (hyz : CliffScore.cmp y z = .lt) : CliffScore.cmp x z = .lt := by
  cases x <;> cases y <;> cases z <;>
    simp_all [CliffScore.cmp, Nat.compare_eq_lt]
  omega

end OrderingLemmas

/-- Example knapsack of the scoring-cliff property: items
(1,5,8), (2,9,6), (3,2,7) with capacity 13. -/
def cliffExample : Knapsack :=
  Knapsack.new [Item.new 1 5 8, Item.new 2 9 6, Item.new 3 2 7] 13

/-- C2: the comparison on scores is a total order (reflexive, total,
antisymmetric, transitive) in which `Overloaded` is strictly below every
`Score n` including `n = 0`, `Score` payloads compare numerically, and
equality holds exactly on identical variants with identical payloads. -/
theorem cliffscore_total_order :
    (∀ x : CliffScore, CliffScore.cmp x x = .eq) ∧
    (∀ x y : CliffScore, CliffScore.cmp x y = .lt ∨ CliffScore.cmp x y = .eq ∨
      CliffScore.cmp x y = .gt) ∧
    (∀ x y : CliffScore, CliffScore.cmp x y = .eq → x = y) ∧
    (∀ x y z : CliffScore, CliffScore.cmp x y = .lt → CliffScore.cmp y z = .lt →
      CliffScore.cmp x z = .lt) ∧
    (∀ x y : CliffScore, CliffScore.cmp x y = .lt ↔ CliffScore.cmp y x = .gt) ∧
    (∀ n : Nat, CliffScore.cmp .Overloaded (.Score n) = .lt) ∧
    (∀ a b : Nat, CliffScore.cmp (.Score a) (.Score b) = .lt ↔ a < b) ∧
    (CliffScore.cmp .Overloaded .Overloaded = .eq) ∧
    (∀ a b : Nat, CliffScore.cmp (.Score a) (.Score b) = .eq ↔ a = b) := by
  refine ⟨fun x => (CliffScore.cmp_eq_eq_iff x x).mpr rfl, ?_,
    fun x y h => (CliffScore.cmp_eq_eq_iff x y).mp h,
    fun x y z hxy hyz => CliffScore.cmp_trans hxy hyz,
    CliffScore.cmp_lt_iff_gt, fun n => rfl, CliffScore.cmp_score_lt_iff, rfl, ?_⟩
  · intro x y
    cases CliffScore.cmp x y <;> simp
  · intro a b
    rw [CliffScore.cmp_eq_eq_iff]
    simp

/-- Witness for C2: transitivity applied at Overloaded, Score 3, Score 7. -/
theorem cliffscore_total_order_witness :
    CliffScore.cmp .Overloaded (.Score 7) = .lt :=
  cliffscore_total_order.2.2.2.1 .Overloaded (.Score 3) (.Score 7) (by decide) (by decide)

/-- C9: the default score is `Overloaded`, the worst element of the order. -/
theorem cliffscore_default_overloaded :
    CliffScore.default = .Overloaded ∧
    (∀ s : CliffScore, CliffScore.cmp CliffScore.default s = .lt ∨
      CliffScore.cmp CliffScore.default s = .eq) := by
  refine ⟨rfl, fun s => ?_⟩
  cases s <;> simp [CliffScore.default, CliffScore.cmp]

/-- C7: value, weight, the scorer and the score comparison are total over
their whole domains: every input yields a result, the scorer always yields
one of the two score variants, and the comparison always yields one of the
three orderings. -/
theorem scoring_total_function :
    ∀ (k : Knapsack) (choices : List Bool) (x y : CliffScore),
    (∃ n, k.value choices = n) ∧ (∃ n, k.weight choices = n) ∧
    (CliffScorer.score k choices = .Overloaded ∨
      CliffScorer.score k choices = .Score (k.value choices)) ∧
    (CliffScore.cmp x y = .lt ∨ CliffScore.cmp x y = .eq ∨
      CliffScore.cmp x y = .gt) := by
  intro k choices x y
  refine ⟨⟨_, rfl⟩, ⟨_, rfl⟩, ?_, ?_⟩
  · unfold CliffScorer.score
    split
    · exact Or.inl rfl
    · exact Or.inr rfl
  · cases CliffScore.cmp x y <;> simp

/-- C8: get_item returns the item at the index exactly when the index is
below the item count, and none when it is out of range. -/
theorem get_item_spec :
    (∀ (k : Knapsack) (index : Nat) (h : index < k.num_items),
      k.get_item index = some (k.items.get ⟨index, h⟩)) ∧
    (∀ (k : Knapsack) (index : Nat), k.num_items ≤ index →
      k.get_item index = none) := by
  constructor
  · intro k index h
    simp [Knapsack.get_item, List.get?_eq_get h]
  · intro k index h
    simp [Knapsack.get_item, List.get?_eq_none]
    exact h

/-- Witness for C8 at a one-item knapsack with indices 0 and 1. -/
theorem get_item_spec_witness :
    (Knapsack.new [Item.new 1 5 8] 10).get_item 0 = some (Item.new 1 5 8) ∧
    (Knapsack.new [Item.new 1 5 8] 10).get_item 1 = none :=
  ⟨get_item_spec.1 (Knapsack.new [Item.new 1 5 8] 10) 0 (by decide),
    get_item_spec.2 (Knapsack.new [Item.new 1 5 8] 10) 1 (by decide)⟩

/-- C1: the scorer returns `Overloaded` exactly when the chosen weight
exceeds the capacity and the total value as a `Score` otherwise; at
capacity 0 only choices of weight exactly 0 score a value; and the
scoring-cliff example behaves as specified. -/
theorem cliff_scorer_spec :
    (∀ (k : Knapsack) (choices : List Bool),
      (k.weight choices > k.capacity → CliffScorer.score k choices = .Overloaded) ∧
      (k.weight choices ≤ k.capacity →
        CliffScorer.score k choices = .Score (k.value choices)) ∧
      (k.capacity = 0 →
        ((∃ n, CliffScorer.score k choices = .Score n) ↔ k.weight choices = 0))) ∧
    CliffScorer.score cliffExample [true, false, true] = .Overloaded ∧
    CliffScorer.score cliffExample [false, true, false] = .Score 9 ∧
    CliffScorer.score cliffExample [false, false, false] = .Score 0 := by
  refine ⟨fun k choices => ⟨?_, ?_, ?_⟩, by decide, by decide, by decide⟩
  · intro h
    simp [CliffScorer.score, h]
  · intro h
    simp [CliffScorer.score, Nat.not_lt.mpr h]
  · intro hcap
    unfold CliffScorer.score
    constructor
    · intro ⟨n, hn⟩
      by_cases hw : k.weight choices > k.capacity
      · rw [if_pos hw] at hn
        exact absurd hn (by simp)
      · omega
    · intro hw
      rw [if_neg (by omega)]
      exact ⟨k.value choices, rfl⟩

/-- Witness for C1: the feasible branch applied at the example knapsack. -/
theorem cliff_scorer_spec_witness :
    CliffScorer.score cliffExample [false, true, false]
      = .Score (cliffExample.value [false, true, false]) :=
  (cliff_scorer_spec.1 cliffExample [false, true, false]).2.1 (by decide)

/-- Generic fact behind C3: the zip-filter sum over items and choices equals
the sum over the indices below both lengths at which the choice bit is true. -/
theorem zip_choice_sum (f : Item → Nat) :
    ∀ (items : List Item) (choices : List Bool),
    ((items.zip choices).filterMap fun p => if p.2 then some (f p.1) else none).sum
      = ((List.range (min items.length choices.length)).map
          fun i => if choices.getD i false then f (items.getD i (Item.new 0 0 0)) else 0).sum := by
  intro items
  induction items with
  | nil => intro choices; simp
  | cons a as ih =>
    intro choices
    cases choices with
    | nil => simp
    | cons b bs =>
      simp only [List.zip_cons_cons, List.filterMap_cons, List.length_cons,
        Nat.succ_min_succ, List.range_succ_eq_map, List.map_cons, List.map_map]
      cases b <;>
        simp [ih bs, Function.comp_def, List.getD_cons_succ, List.getD_cons_zero,
          List.sum_cons]

/-- C3: value and weight aggregate by sum-filter over the indices below both
the item count and the choice-vector length, and both return zero on the
empty choice vector. -/
theorem knapsack_value_weight_sum :
    (∀ (k : Knapsack) (choices : List Bool),
      k.value choices
        = ((List.range (min k.num_items choices.length)).map
            fun i => if choices.getD i false
              then (k.items.getD i (Item.new 0 0 0)).value else 0).sum) ∧
    (∀ (k : Knapsack) (choices : List Bool),
      k.weight choices
        = ((List.range (min k.num_items choices.length)).map
            fun i => if choices.getD i false
              then (k.items.getD i (Item.new 0 0 0)).weight else 0).sum) ∧
    (∀ k : Knapsack, k.value [] = 0 ∧ k.weight [] = 0) := by
  refine ⟨fun k choices => ?_, fun k choices => ?_, fun k => ?_⟩
  · exact zip_choice_sum Item.value k.items choices
  · exact zip_choice_sum Item.weight k.items choices
  · constructor <;> simp [Knapsack.value, Knapsack.weight]

/-- One step of the best-ever update on a present record yields a record
whose score is the maximum of the stored and the incoming scores. -/
theorem report_step (a b : EcIndividual) :
    ∃ c, report_on_generation b (some a) = some c ∧
      c.test_results = CliffScore.max a.test_results b.test_results := by
  unfold report_on_generation CliffScore.max
  by_cases h : CliffScore.cmp b.test_results a.test_results = .gt
  · refine ⟨b, by simp [h], ?_⟩
    rw [if_pos ((CliffScore.cmp_lt_iff_gt _ _).mpr h)]
  · refine ⟨a, by simp [h], ?_⟩
    rw [if_neg (fun hlt => h ((CliffScore.cmp_lt_iff_gt _ _).mp hlt))]

/-- Folding the best-ever update from a present record tracks the running
maximum of the scores. -/
theorem foldl_report_some (bests : List EcIndividual) :
    ∀ a : EcIndividual,
    ∃ ind, bests.foldl (fun r best => report_on_generation best r) (some a) = some ind ∧
      ind.test_results
        = (bests.map fun b => b.test_results).foldl CliffScore.max a.test_results := by
  induction bests with
  | nil => exact fun a => ⟨a, rfl, rfl⟩
  | cons b bs ih =>
    intro a
    obtain ⟨c, hc, hcr⟩ := report_step a b
    obtain ⟨ind, hind, hindr⟩ := ih c
    refine ⟨ind, ?_, ?_⟩
    · simpa [List.foldl_cons, hc] using hind
    · rw [hindr, hcr]
      simp [List.foldl_cons]

/-- The worst score is a left identity of the running maximum. -/
theorem cliffscore_max_overloaded_left (x : CliffScore) :
    CliffScore.max .Overloaded x = x := by
  cases x <;> simp [CliffScore.max, CliffScore.cmp]

/-- C4: the best-ever update sets an absent record, replaces a present
record exactly when the new best is strictly greater, is idempotent, never
regresses the record, and across generations the recorded score is the
running maximum of the per-generation best scores. -/
theorem best_ever_update_spec :
    (∀ best : EcIndividual, report_on_generation best none = some best) ∧
    (∀ b best : EcIndividual,
      CliffScore.cmp best.test_results b.test_results = .gt →
      report_on_generation best (some b) = some best) ∧
    (∀ b best : EcIndividual,
      CliffScore.cmp best.test_results b.test_results ≠ .gt →
      report_on_generation best (some b) = some b) ∧
    (∀ (r : Option EcIndividual) (best : EcIndividual),
      report_on_generation best (report_on_generation best r)
        = report_on_generation best r) ∧
    (∀ b best ind : EcIndividual,
      report_on_generation best (some b) = some ind →
      CliffScore.cmp b.test_results ind.test_results ≠ .gt) ∧
    (∀ bests : List EcIndividual, bests ≠ [] →
      ∃ ind, bestEverAfter bests = some ind ∧
        ind.test_results
          = (bests.map fun b => b.test_results).foldl CliffScore.max .Overloaded) := by
  have hrefl : ∀ x : CliffScore, CliffScore.cmp x x = .eq :=
    fun x => (CliffScore.cmp_eq_eq_iff x x).mpr rfl
  refine ⟨fun best => rfl, ?_, ?_, ?_, ?_, ?_⟩
  · intro b best h
    simp [report_on_generation, h]
  · intro b best h
    simp [report_on_generation, h]
  · intro r best
    cases r with
    | none =>
      simp [report_on_generation, hrefl best.test_results]
    | some b =>
      by_cases h : CliffScore.cmp best.test_results b.test_results = .gt <;>
        simp [report_on_generation, h, hrefl best.test_results]
  · intro b best ind hupd
    by_cases h : CliffScore.cmp best.test_results b.test_results = .gt
    · simp only [report_on_generation, if_pos h, Option.some_inj] at hupd
      subst hupd
      have hlt : CliffScore.cmp b.test_results best.test_results = .lt :=
        (CliffScore.cmp_lt_iff_gt _ _).mpr h
      simp [hlt]
    · simp only [report_on_generation, if_neg h, Option.some_inj] at hupd
      subst hupd
      simp [hrefl]
  · intro bests hne
    cases bests with
    | nil => exact absurd rfl hne
    | cons b bs =>
      obtain ⟨ind, hind, hindr⟩ := foldl_report_some bs b
      refine ⟨ind, ?_, ?_⟩
      · simpa [bestEverAfter, List.foldl_cons, report_on_generation] using hind
      · rw [hindr]
        simp [List.foldl_cons, cliffscore_max_overloaded_left]

/-- Witness for C4: the running-maximum property applied to a concrete
two-generation history. -/
theorem best_ever_update_spec_witness :
    ∃ ind,
      bestEverAfter [EcIndividual.mk [true] (.Score 3), EcIndividual.mk [false] (.Score 1)]
        = some ind ∧
      ind.test_results
        = (([EcIndividual.mk [true] (.Score 3), EcIndividual.mk [false] (.Score 1)]).map
            fun b => b.test_results).foldl CliffScore.max .Overloaded :=
  best_ever_update_spec.2.2.2.2.2
    [EcIndividual.mk [true] (.Score 3), EcIndividual.mk [false] (.Score 1)]
    (by simp)

/-- ASCII whitespace exactly as Rust split_ascii_whitespace recognises it:
space, tab, newline, form feed and carriage return. -/
def isAsciiWhitespace (c : Char) : Bool :=
  c = ' ' || c = '\t' || c = '\n' || c = Char.ofNat 12 || c = '\r'

/-- Accumulator-passing worker for `splitWhitespace`; the accumulator holds
the current token reversed. -/
def splitWsAux : List Char → List Char → List (List Char)
  | [], acc => if acc.isEmpty then [] else [acc.reverse]
  | c :: cs, acc =>
    if isAsciiWhitespace c then
      if acc.isEmpty then splitWsAux cs [] else acc.reverse :: splitWsAux cs []
    else splitWsAux cs (c :: acc)

/-- Splitting a line into its maximal runs of non-whitespace characters, as
Rust split_ascii_whitespace does; lines are embedded as character lists. -/
def splitWhitespace (s : List Char) : List (List Char) :=
  splitWsAux s []

/-- Parsing of an unsigned integer as Rust str::parse does on unsigned
types: an optional leading plus sign followed by one or more ASCII
digits. -/
def parseNatChars (s : List Char) : Option Nat :=
  let digits := match s with
    | '+' :: cs => cs
    | _ => s
  if digits.isEmpty then none
  else if digits.all Char.isDigit then
    some (digits.foldl (fun acc c => acc * 10 + (c.toNat - 48)) 0)
  else none

/-- Collecting the integer parses of a token list, stopping at the first
failing token, as collecting an iterator of Results does in
`Item::from_str`. -/
def parseTokens : List (List Char) → Except (List Char) (List Nat)
  | [] => .ok []
  | t :: ts =>
    match parseNatChars t with
    | none => .error t
    | some v =>
      match parseTokens ts with
      | .error e => .error e
      | .ok vs => .ok (v :: vs)

/-- Errors raised by `Item::from_str`: the integer-parse failure of a token
propagated by the question-mark operator, or the ensure message naming the
whole line when the field count is not three. -/
inductive ItemError where
  | intParse : List Char → ItemError
  | format : List Char → ItemError
deriving DecidableEq, Repr

/-- Mirror of `Item::from_str`: split the line on ASCII whitespace, parse
every token as an unsigned integer collecting the first failure, then
require exactly three fields and build the item from them. -/
def Item.from_str (s : List Char) : Except ItemError Item :=
  match parseTokens (splitWhitespace s) with
  | .error t => .error (.intParse t)
  | .ok values =>
    if values.length = 3 then
      .ok (Item.new (values.getD 0 0) (values.getD 1 0) (values.getD 2 0))
    else .error (.format s)

/-- Errors raised by `Knapsack::from_file_path`, one per failure site in the
source: the failed file open, the empty file, the unparsable first line, a
missing item line (carrying the loop index), a failed item parse, the ensure
on the collected item count, a missing capacity line, and an unparsable
capacity line. -/
inductive LoadError where
  | ioOpen : LoadError
  | emptyFile : LoadError
  | badNumItems : List Char → LoadError
  | missingItemLine : Nat → LoadError
  | itemParse : ItemError → LoadError
  | wrongItemCount : Nat → Nat → LoadError
  | missingCapacity : LoadError
  | badCapacity : List Char → LoadError
deriving DecidableEq, Repr

/-- Mirror of the item-reading loop of `Knapsack::from_file_path`: read the
next `n` lines, parse each as an item, and return the items together with
the lines left over; `idx` is the loop counter used in the missing-line
error message. -/
def readItems (idx : Nat) : Nat → List (List Char) → Except LoadError (List Item × List (List Char))
  | 0, lines => .ok ([], lines)
  | _ + 1, [] => .error (.missingItemLine idx)
  | n + 1, line :: rest =>
    match Item.from_str line with
    | .error e => .error (.itemParse e)
    | .ok item =>
      match readItems (idx + 1) n rest with
      | .error e => .error e
      | .ok (items, remaining) => .ok (item :: items, remaining)

/-- Mirror of the line-consuming part of `Knapsack::from_file_path`: parse
the first line as the item count, read that many item lines, check the
collected count, then parse the next line as the capacity; any lines after
the capacity line are never inspected. -/
def Knapsack.from_lines : List (List Char) → Except LoadError Knapsack
  | [] => .error .emptyFile
  | first :: rest =>
    match parseNatChars first with
    | none => .error (.badNumItems first)
    | some num_items =>
      match readItems 0 num_items rest with
      | .error e => .error e
      | .ok (items, remaining) =>
        if items.length = num_items then
          match remaining with
          | [] => .error .missingCapacity
          | capLine :: _ =>
            match parseNatChars capLine with
            | none => .error (.badCapacity capLine)
            | some capacity => .ok (Knapsack.new items capacity)
        else .error (.wrongItemCount num_items items.length)

/-- Mirror of `Knapsack::from_file_path` as a whole: a file that cannot be
opened is `none`; an opened file is its list of lines. -/
def Knapsack.from_file_path : Option (List (List Char)) → Except LoadError Knapsack
  | none => .error .ioOpen
  | some lines => Knapsack.from_lines lines

/-- Token collection succeeds on a token list exactly when every token
parses, and then returns one value per token. -/
theorem parseTokens_ok_of_all :
    ∀ ts : List (List Char), (∀ u ∈ ts, (parseNatChars u).isSome) →
    ∃ vs, parseTokens ts = .ok vs ∧ vs.length = ts.length := by
  intro ts
  induction ts with
  | nil => exact fun _ => ⟨[], rfl, rfl⟩
  | cons t ts ih =>
    intro h
    obtain ⟨v, hv⟩ := Option.isSome_iff_exists.mp (h t (List.mem_cons_self t ts))
    obtain ⟨vs, hvs, hlen⟩ := ih fun u hu => h u (List.mem_cons_of_mem t hu)
    exact ⟨v :: vs, by simp [parseTokens, hv, hvs], by simp [hlen]⟩

/-- When token collection succeeds, every token parses and there is one
value per token. -/
theorem parseTokens_ok_inv :
    ∀ (ts : List (List Char)) (vs : List Nat), parseTokens ts = .ok vs →
    vs.length = ts.length ∧ ∀ u ∈ ts, (parseNatChars u).isSome := by
  intro ts
  induction ts with
  | nil =>
    intro vs h
    simp only [parseTokens, Except.ok.injEq] at h
    subst h
    exact ⟨rfl, by simp⟩
  | cons t ts ih =>
    intro vs h
    unfold parseTokens at h
    cases hv : parseNatChars t with
    | none => rw [hv] at h; exact absurd h (by simp)
    | some v =>
      rw [hv] at h
      cases hts : parseTokens ts with
      | error e => rw [hts] at h; exact absurd h (by simp)
      | ok ws =>
        rw [hts] at h
        obtain ⟨hlen, hall⟩ := ih ws hts
        simp only [Except.ok.injEq] at h
        subst h
        refine ⟨by simp [hlen], ?_⟩
        intro u hu
        rcases List.mem_cons.mp hu with h1 | h2
        · subst h1; simp [hv]
        · exact hall u h2

/-- Token collection stops at the first failing token: tokens before it all
parse and the failing token is reported. -/
theorem parseTokens_first_error :
    ∀ (pre : List (List Char)) (t : List Char) (post : List (List Char)),
    (∀ u ∈ pre, (parseNatChars u).isSome) → parseNatChars t = none →
    parseTokens (pre ++ t :: post) = .error t := by
  intro pre
  induction pre with
  | nil =>
    intro t post _ ht
    simp [parseTokens, ht]
  | cons p pre ih =>
    intro t post h ht
    obtain ⟨v, hv⟩ := Option.isSome_iff_exists.mp (h p (List.mem_cons_self p pre))
    have := ih t post (fun u hu => h u (List.mem_cons_of_mem p hu)) ht
    simp [parseTokens, hv, this]

/-- When some token fails to parse, token collection reports an error. -/
theorem parseTokens_error_of_bad :
    ∀ ts : List (List Char), (∃ u ∈ ts, parseNatChars u = none) →
    ∃ t, parseTokens ts = .error t := by
  intro ts
  induction ts with
  | nil => rintro ⟨u, hu, -⟩; exact absurd hu (List.not_mem_nil u)
  | cons t ts ih =>
    rintro ⟨u, hu, hnone⟩
    rcases List.mem_cons.mp hu with h1 | h2
    · subst h1
      exact ⟨u, by simp [parseTokens, hnone]⟩
    · cases hv : parseNatChars t with
      | none => exact ⟨t, by simp [parseTokens, hv]⟩
      | some v =>
        obtain ⟨e, he⟩ := ih ⟨u, h2, hnone⟩
        exact ⟨e, by simp [parseTokens, hv, he]⟩

/-- C10: token conversion happens before the field-count check, so a line
with the wrong number of fields that also contains a non-numeric token is
reported as the numeric-parse failure of its first non-numeric token, not
as the field-count error naming the line. -/
theorem item_from_str_first_bad_token :
    ∀ (s : List Char) (pre post : List (List Char)) (t : List Char),
    splitWhitespace s = pre ++ t :: post →
    pre.length + 1 + post.length ≠ 3 →
    (∀ u ∈ pre, (parseNatChars u).isSome) →
    parseNatChars t = none →
    Item.from_str s = .error (.intParse t) ∧
      Item.from_str s ≠ .error (.format s) := by
  intro s pre post t hsplit _ hpre ht
  have herr : parseTokens (splitWhitespace s) = .error t := by
    rw [hsplit]
    exact parseTokens_first_error pre t post hpre ht
  constructor
  · unfold Item.from_str
    rw [herr]
  · unfold Item.from_str
    rw [herr]
    simp

/-- Witness for C10 at the two-field line with a non-numeric second field. -/
theorem item_from_str_first_bad_token_witness :
    Item.from_str "1 x".toList = .error (.intParse "x".toList) ∧
      Item.from_str "1 x".toList ≠ .error (.format "1 x".toList) :=
  item_from_str_first_bad_token "1 x".toList ["1".toList] [] "x".toList
    (by decide) (by decide) (by decide) (by decide)

/-- Counterexample for C6 as stated: the line with fields 1 and x has a
field count other than three, yet fails with the numeric-parse error of
the token x, not with the format error naming the line. -/
theorem item_from_str_counterexample :
    Item.from_str "1 x".toList = .error (.intParse "x".toList) ∧
      ¬ Item.from_str "1 x".toList = .error (.format "1 x".toList) := by
  have h1 : Item.from_str "1 x".toList = .error (.intParse "x".toList) := rfl
  refine ⟨h1, fun h => ?_⟩
  rw [h1] at h
  exact absurd h (by simp)

/-- Unfolding of `Item.from_str` when token collection succeeds. -/
theorem item_from_str_of_tokens_ok (s : List Char) (vs : List Nat)
    (h : parseTokens (splitWhitespace s) = .ok vs) :
    Item.from_str s
      = if vs.length = 3 then
          .ok (Item.new (vs.getD 0 0) (vs.getD 1 0) (vs.getD 2 0))
        else .error (.format s) := by
  unfold Item.from_str
  rw [h]

/-- Unfolding of `Item.from_str` when token collection fails. -/
theorem item_from_str_of_tokens_error (s t : List Char)
    (h : parseTokens (splitWhitespace s) = .error t) :
    Item.from_str s = .error (.intParse t) := by
  unfold Item.from_str
  rw [h]

/-- C6 amended: parsing succeeds exactly when the line consists of three
whitespace-separated unsigned integers, and then returns the item built
from them in order; a line whose tokens all parse but whose count is not
three fails with the format error naming the line; a line containing a
non-numeric token fails with a numeric-parse error instead. -/
theorem item_from_str_amended :
    (∀ (s t1 t2 t3 : List Char) (a b c : Nat),
      splitWhitespace s = [t1, t2, t3] →
      parseNatChars t1 = some a → parseNatChars t2 = some b →
      parseNatChars t3 = some c →
      Item.from_str s = .ok (Item.new a b c)) ∧
    (∀ s : List Char, (∀ u ∈ splitWhitespace s, (parseNatChars u).isSome) →
      (splitWhitespace s).length ≠ 3 →
      Item.from_str s = .error (.format s)) ∧
    (∀ s : List Char, (∃ it, Item.from_str s = .ok it) ↔
      ((splitWhitespace s).length = 3 ∧
        ∀ u ∈ splitWhitespace s, (parseNatChars u).isSome)) ∧
    (∀ s : List Char, (∃ u ∈ splitWhitespace s, parseNatChars u = none) →
      ∃ t, Item.from_str s = .error (.intParse t)) := by
  refine ⟨?_, ?_, ?_, ?_⟩
  · intro s t1 t2 t3 a b c hsplit h1 h2 h3
    have htok : parseTokens (splitWhitespace s) = .ok [a, b, c] := by
      rw [hsplit]
      simp [parseTokens, h1, h2, h3]
    rw [item_from_str_of_tokens_ok s [a, b, c] htok]
    simp [Item.new]
  · intro s hall hlen
    obtain ⟨vs, hvs, hvslen⟩ := parseTokens_ok_of_all (splitWhitespace s) hall
    rw [item_from_str_of_tokens_ok s vs hvs, if_neg (hvslen ▸ hlen)]
  · intro s
    constructor
    · rintro ⟨it, hit⟩
      cases htok : parseTokens (splitWhitespace s) with
      | error t =>
        rw [item_from_str_of_tokens_error s t htok] at hit
        exact absurd hit (by simp)
      | ok vs =>
        obtain ⟨hlen, hall⟩ := parseTokens_ok_inv (splitWhitespace s) vs htok
        rw [item_from_str_of_tokens_ok s vs htok] at hit
        by_cases h3 : vs.length = 3
        · exact ⟨hlen ▸ h3, hall⟩
        · rw [if_neg h3] at hit
          exact absurd hit (by simp)
    · rintro ⟨hlen, hall⟩
      obtain ⟨vs, hvs, hvslen⟩ := parseTokens_ok_of_all (splitWhitespace s) hall
      refine ⟨Item.new (vs.getD 0 0) (vs.getD 1 0) (vs.getD 2 0), ?_⟩
      rw [item_from_str_of_tokens_ok s vs hvs, if_pos (hvslen.trans hlen)]
  · intro s hbad
    obtain ⟨t, ht⟩ := parseTokens_error_of_bad (splitWhitespace s) hbad
    exact ⟨t, item_from_str_of_tokens_error s t ht⟩

/-- Witness for the amended C6: the success branch applied to the line
with fields 1, 100 and 50. -/
theorem item_from_str_amended_witness :
    Item.from_str "1 100 50".toList = .ok (Item.new 1 100 50) :=
  item_from_str_amended.1 "1 100 50".toList
    "1".toList "100".toList "50".toList 1 100 50
    (by decide) (by decide) (by decide) (by decide)

/-- The item-reading loop consumes exactly its count of lines when each of
them parses, returning the parsed items in order and the untouched
remainder of the file. -/
theorem readItems_all_ok :
    ∀ (itemLines : List (List Char)) (items : List Item),
    List.Forall₂ (fun l it => Item.from_str l = .ok it) itemLines items →
    ∀ (extra : List (List Char)) (idx : Nat),
    readItems idx itemLines.length (itemLines ++ extra) = .ok (items, extra) := by
  intro itemLines items hfa
  induction hfa with
  | nil => intro extra idx; rfl
  | cons hl _ ih =>
    intro extra idx
    simp only [List.length_cons, List.cons_append, readItems, hl, List.append_eq,
      ih extra (idx + 1)]

/-- The item-reading loop fails when fewer lines remain than items are
requested. -/
theorem readItems_short :
    ∀ (lines : List (List Char)) (n idx : Nat), lines.length < n →
    ∃ e, readItems idx n lines = .error e := by
  intro lines
  induction lines with
  | nil =>
    intro n idx h
    cases n with
    | zero => exact absurd h (by simp)
    | succ m => exact ⟨.missingItemLine idx, rfl⟩
  | cons l ls ih =>
    intro n idx h
    cases n with
    | zero => exact absurd h (by simp)
    | succ m =>
      cases hl : Item.from_str l with
      | error e => exact ⟨.itemParse e, by simp [readItems, hl]⟩
      | ok item =>
        obtain ⟨e, he⟩ := ih m (idx + 1) (by simpa using h)
        exact ⟨e, by simp [readItems, hl, he]⟩

/-- The item-reading loop propagates the first failing item parse when it
occurs within the requested count. -/
theorem readItems_bad_item :
    ∀ (pre : List (List Char)) (itemsPre : List Item),
    List.Forall₂ (fun l it => Item.from_str l = .ok it) pre itemsPre →
    ∀ (bad : List Char) (post : List (List Char)) (e : ItemError) (n idx : Nat),
    pre.length < n → Item.from_str bad = .error e →
    readItems idx n (pre ++ bad :: post) = .error (.itemParse e) := by
  intro pre itemsPre hfa
  induction hfa with
  | nil =>
    intro bad post e n idx hn hbad
    cases n with
    | zero => exact absurd hn (by simp)
    | succ m => simp [readItems, hbad]
  | cons hl _ ih =>
    intro bad post e n idx hn hbad
    cases n with
    | zero => exact absurd hn (by simp)
    | succ m =>
      have := ih bad post e m (idx + 1) (by simpa using hn) hbad
      simp [readItems, hl, this]

/-- C5: the loader fails on an unopenable file, an empty file, an
unparsable item count, too few item lines, a failing item line, a missing
capacity line and an unparsable capacity line; it succeeds exactly on a
count line, that many parsing item lines and a parsing capacity line,
returning the items in order with the capacity, ignoring any lines after
the capacity line; and an error never returns a knapsack. -/
theorem from_file_path_spec :
    (Knapsack.from_file_path none = .error .ioOpen) ∧
    (Knapsack.from_lines [] = .error .emptyFile) ∧
    (∀ (first : List Char) (rest : List (List Char)), parseNatChars first = none →
      Knapsack.from_lines (first :: rest) = .error (.badNumItems first)) ∧
    (∀ (first capLine : List Char) (itemLines extra : List (List Char))
        (n c : Nat) (items : List Item),
      parseNatChars first = some n → itemLines.length = n →
      List.Forall₂ (fun l it => Item.from_str l = .ok it) itemLines items →
      parseNatChars capLine = some c →
      Knapsack.from_lines (first :: itemLines ++ capLine :: extra)
        = .ok (Knapsack.new items c)) ∧
    (∀ (first : List Char) (rest : List (List Char)) (n : Nat),
      parseNatChars first = some n → rest.length < n →
      ∃ e, Knapsack.from_lines (first :: rest) = .error e) ∧
    (∀ (first bad : List Char) (pre post : List (List Char))
        (itemsPre : List Item) (n : Nat) (e : ItemError),
      parseNatChars first = some n →
      List.Forall₂ (fun l it => Item.from_str l = .ok it) pre itemsPre →
      pre.length < n → Item.from_str bad = .error e →
      Knapsack.from_lines (first :: pre ++ bad :: post) = .error (.itemParse e)) ∧
    (∀ (first : List Char) (itemLines : List (List Char)) (n : Nat)
        (items : List Item),
      parseNatChars first = some n → itemLines.length = n →
      List.Forall₂ (fun l it => Item.from_str l = .ok it) itemLines items →
      Knapsack.from_lines (first :: itemLines) = .error .missingCapacity) ∧
    (∀ (first capLine : List Char) (itemLines extra : List (List Char))
        (n : Nat) (items : List Item),
      parseNatChars first = some n → itemLines.length = n →
      List.Forall₂ (fun l it => Item.from_str l = .ok it) itemLines items →
      parseNatChars capLine = none →
      Knapsack.from_lines (first :: itemLines ++ capLine :: extra)
        = .error (.badCapacity capLine)) ∧
    (∀ lines : List (List Char),
      (∃ e, Knapsack.from_lines lines = .error e) ↔
        ¬ ∃ k, Knapsack.from_lines lines = .ok k) := by
  refine ⟨rfl, rfl, ?_, ?_, ?_, ?_, ?_, ?_, ?_⟩
  · intro first rest h
    simp [Knapsack.from_lines, h]
  · intro first capLine itemLines extra n c items hn hlen hfa hc
    have hread := readItems_all_ok itemLines items hfa (capLine :: extra) 0
    rw [hlen] at hread
    have hitems : items.length = n := hlen ▸ hfa.length_eq.symm
    simp [Knapsack.from_lines, hn, hread, hitems, hc]
  · intro first rest n hn hshort
    obtain ⟨e, he⟩ := readItems_short rest n 0 hshort
    exact ⟨e, by simp [Knapsack.from_lines, hn, he]⟩
  · intro first bad pre post itemsPre n e hn hfa hpre hbad
    have := readItems_bad_item pre itemsPre hfa bad post e n 0 hpre hbad
    simp [Knapsack.from_lines, hn, this]
  · intro first itemLines n items hn hlen hfa
    have hread := readItems_all_ok itemLines items hfa [] 0
    rw [hlen, List.append_nil] at hread
    have hitems : items.length = n := hlen ▸ hfa.length_eq.symm
    simp [Knapsack.from_lines, hn, hread, hitems]
  · intro first capLine itemLines extra n items hn hlen hfa hc
    have hread := readItems_all_ok itemLines items hfa (capLine :: extra) 0
    rw [hlen] at hread
    have hitems : items.length = n := hlen ▸ hfa.length_eq.symm
    simp [Knapsack.from_lines, hn, hread, hitems, hc]
  · intro lines
    constructor
    · rintro ⟨e, he⟩ ⟨k, hk⟩
      rw [he] at hk
      exact absurd hk (by simp)
    · intro h
      cases hres : Knapsack.from_lines lines with
      | error e => exact ⟨e, rfl⟩
      | ok k => exact absurd ⟨k, hres⟩ h

/-- Witness for C5: the success branch applied to the round-trip example
file with one trailing ignored line. -/
theorem from_file_path_spec_witness :
    Knapsack.from_lines
        ["3".toList, "1 3 8".toList, "2 2 8".toList, "3 9 1".toList,
          "10".toList, "ignored".toList]
      = .ok (Knapsack.new [Item.new 1 3 8, Item.new 2 2 8, Item.new 3 9 1] 10) :=
  from_file_path_spec.2.2.2.1 "3".toList "10".toList
    ["1 3 8".toList, "2 2 8".toList, "3 9 1".toList] ["ignored".toList] 3 10
    [Item.new 1 3 8, Item.new 2 2 8, Item.new 3 9 1]
    (by decide) (by decide)
    (List.Forall₂.cons rfl (List.Forall₂.cons rfl (List.Forall₂.cons rfl List.Forall₂.nil)))
    (by decide)
